import Mathlib

/-!
Verification of the Tlon MCP server core (src/index.js).

This file gives a shallow embedding in Lean 4 of the translation and
normalization layer of the server: the @urbit/aura time encoding used to
build message identifiers (`unixToDa`, `formatUd`), the contact directory
builder (`formatContacts`), the address resolver (`resolveShipName`), the
history normalizer (`formatDmHistory`), the history reader with its count
clamp (`readDmHistory`), the send operation with its session guard
(`sendDm`), and the tool-level wrapper for sending (`sendDmTool`).

JavaScript strings are modelled by `String`, objects by structures,
JavaScript `undefined`/`null` fields by `Option`, thrown exceptions by
`Except String` carrying the error message, and JavaScript number
arithmetic on integer values by `Int`/`Nat`.  Association lists with
JavaScript object-assignment semantics (`upsert`: overwrite in place,
otherwise append) model plain-object indices.  `Array.prototype.sort`
with the consistent comparator `(a, b) => b.timestamp - a.timestamp`
produces the unique stable descending order, modelled by
`List.insertionSort`.  ASCII `toLowerCase` is modelled character-wise.
-/

/-! ## JavaScript string primitives (character-list level) -/

/-- Model of `s.toLowerCase()` (character-wise, ASCII). -/
def jsToLower (s : String) : String := ⟨s.data.map Char.toLower⟩

/-- Model of `s.startsWith("~")`. -/
def startsWithSigil (s : String) : Bool :=
  match s.data with
  | '~' :: _ => true
  | _ => false

/-- Model of the `ship.startsWith("~") ? ship : `~$\x7bship\x7d`` normalization. -/
def withSigil (s : String) : String :=
  if startsWithSigil s then s else ⟨'~' :: s.data⟩

/-- Whether the character list `sub` occurs at the start of `l` (helper for
`containsSub`). -/
def startsList : List Char → List Char → Bool
  | _, [] => true
  | [], _ :: _ => false
  | c :: cs, p :: ps => p == c && startsList cs ps

/-- Model of JavaScript `haystack.includes(needle)` on character lists. -/
def containsSub : List Char → List Char → Bool
  | l, sub =>
    startsList l sub ||
      match l with
      | [] => false
      | _ :: t => containsSub t sub

/-- Model of `s.trim()`: drop leading and trailing whitespace. -/
def jsTrim (s : String) : String :=
  ⟨((s.data.dropWhile Char.isWhitespace).reverse.dropWhile Char.isWhitespace).reverse⟩

/-- Model of `array.join(sep)`. -/
def jsJoin (sep : String) : List String → String
  | [] => ("")
  | [x] => x
  | x :: xs => x ++ sep ++ jsJoin sep xs

/-! ## JavaScript object indices as association lists -/

/-- Model of JavaScript property assignment `obj[k] = v`: if the key is
present its value is replaced in place, otherwise the pair is appended. -/
def upsert (l : List (String × α)) (k : String) (v : α) : List (String × α) :=
  if l.any (fun p => p.1 == k) then
    l.map (fun p => if p.1 == k then (k, v) else p)
  else
    l ++ [(k, v)]

/-- Model of JavaScript property access `obj[k]` on an index built by
`upsert`. -/
def lookupIdx (l : List (String × α)) (k : String) : Option α :=
  match l.find? (fun p => p.1 == k) with
  | some p => some p.2
  | none => none

/-! ## The @urbit/aura time encoding used by sendDm

`unixToDa` and `formatUd` are the library functions invoked at
src/index.js:144 (`formatUd(unixToDa(sentAt).toString())`).  `unixToDa`
adds the Urbit epoch constant to `unix * 2^64 / 1000` (BigInt division
truncates), and `formatUd` renders the decimal digits grouped in threes
from the right, separated by dots. -/

/-- The aura constant `DA_UNIX_EPOCH` (the `@da` value of 1970-01-01). -/
def DA_UNIX_EPOCH : Nat := 170141184475152167957503069145530368000

/-- The aura constant `DA_SECOND` (2^64). -/
def DA_SECOND : Nat := 18446744073709551616

/-- Model of aura `unixToDa(unix)` for non-negative epoch milliseconds. -/
def unixToDa (unix : Nat) : Nat := DA_UNIX_EPOCH + unix * DA_SECOND / 1000

/-- Decimal digits of `n`, least significant first (fuelled so that it
evaluates in the kernel; the fuel argument strictly exceeds `n`). -/
def natDigitsAux : Nat → Nat → List Nat
  | 0, _ => []
  | fuel + 1, n => if n < 10 then [n] else n % 10 :: natDigitsAux fuel (n / 10)

/-- Decimal digits of `n`, least significant first. -/
def natDigitsRev (n : Nat) : List Nat := natDigitsAux (n + 1) n

/-- The ASCII character of a decimal digit. -/
def udDigitChar (d : Nat) : Char := Char.ofNat (48 + d)

/-- The decimal representation of `n` as characters, most significant
first (model of JavaScript `BigInt.prototype.toString`). -/
def decimalChars (n : Nat) : List Char := ((natDigitsRev n).reverse).map udDigitChar

/-- Insert a dot before every group of three digits counted from the
right (fuelled; the fuel argument is at least the list length). -/
def groupUdAux : Nat → List Char → List Char
  | 0, l => l
  | fuel + 1, l =>
    if l.length ≤ 3 then l
    else
      let k := (l.length - 1) % 3 + 1
      l.take k ++ '.' :: groupUdAux fuel (l.drop k)

/-- Insert a dot before every group of three digits counted from the right. -/
def groupUd (l : List Char) : List Char := groupUdAux l.length l

/-- Model of aura `formatUd` applied to the decimal string of `n`. -/
def formatUd (n : Nat) : String := ⟨groupUd (decimalChars n)⟩

/-- The message identifier composed at src/index.js:145:
`` `${fromShip}/${idUd}` `` with `idUd = formatUd(unixToDa(sentAt).toString())`. -/
def mkDmId (fromShip : String) (sentAt : Nat) : String :=
  fromShip ++ ("/") ++ formatUd (unixToDa sentAt)

/-! ## Contact records and the directory (formatContacts) -/

/-- The fields of a raw contact record consulted by the code; other
attributes are passed through unused. -/
structure ContactData where
  nickname : Option String
  email : Option String
  phone : Option String
deriving DecidableEq

/-- A value of the `byShip` index: the spread record plus the normalized
`ship` field (`{...data, ship: cleanShip}`). -/
structure ShipEntry where
  nickname : Option String
  email : Option String
  phone : Option String
  ship : String
deriving DecidableEq

/-- Raw contacts as returned by the `/all` scry: ship name mapped to a
record or `null`, in iteration order. -/
def RawContacts := List (String × Option ContactData)

/-- The four indices built by `formatContacts`. -/
structure Formatted where
  byShip : List (String × ShipEntry)
  byNickname : List (String × String)
  byEmail : List (String × String)
  byPhone : List (String × String)
deriving DecidableEq

/-- One iteration of the `Object.entries(contacts).forEach` body of
`formatContacts` for an entry whose record is non-null. -/
def formatContactsStep (acc : Formatted) (ship : String) (d : ContactData) : Formatted :=
  let cleanShip := withSigil ship
  let acc1 := { acc with
    byShip := upsert acc.byShip cleanShip ⟨d.nickname, d.email, d.phone, cleanShip⟩ }
  let acc2 :=
    match d.nickname with
    | some nick =>
      if nick = ("") then acc1
      else { acc1 with byNickname := upsert acc1.byNickname (jsToLower nick) cleanShip }
    | none => acc1
  let acc3 :=
    match d.email with
    | some em =>
      if em = ("") then acc2
      else { acc2 with byEmail := upsert acc2.byEmail (jsToLower em) cleanShip }
    | none => acc2
  match d.phone with
  | some ph =>
    if ph = ("") then acc3
    else { acc3 with byPhone := upsert acc3.byPhone ph cleanShip }
  | none => acc3

/-- The `forEach` loop of `formatContacts`: entries with a null record
are skipped (`if (!data) return`), others are accumulated. -/
def formatContactsAux (acc : Formatted) : RawContacts → Formatted
  | [] => acc
  | (ship, data) :: rest =>
    match data with
    | none => formatContactsAux acc rest
    | some d => formatContactsAux (formatContactsStep acc ship d) rest

/-- Model of `formatContacts` (src/index.js:278-313). -/
def formatContacts (contacts : RawContacts) : Formatted :=
  formatContactsAux ⟨[], [], [], []⟩ contacts

/-! ## Address resolution (resolveShipName) -/

/-- The fixed self-reference vocabulary of `resolveShipName`. -/
def selfReferences : List String := [("me"), ("myself"), ("i"), ("self")]

deriving instance DecidableEq for Except

/-- Outcome of `resolveShipName`: the returned ship or the thrown error
message, together with whether the contact directory was fetched. -/
structure ResolveOut where
  result : Except String String
  fetchedContacts : Bool
deriving DecidableEq

/-- Model of `resolveShipName` (src/index.js:397-478).  The contacts
fetch is supplied as its outcome `fetch` (`getContacts` resolves or
throws); `fetchedContacts` records whether that remote call was made. -/
def resolveShipName (fetch : Except String RawContacts) (nameOrShip own : String) :
    ResolveOut :=
  if nameOrShip = ("") then
    ⟨Except.error ("Name or ship ID is required"), false⟩
  else if selfReferences.contains (jsToLower nameOrShip) then
    ⟨Except.ok own, false⟩
  else if startsWithSigil nameOrShip then
    ⟨Except.ok nameOrShip, false⟩
  else
    match fetch with
    | Except.error e =>
      ⟨Except.error (if e = ("") then ("Failed to fetch contacts") else e), true⟩
    | Except.ok raw =>
      let contacts := formatContacts raw
      let lookupName := jsToLower nameOrShip
      match contacts.byNickname.find? (fun p => p.2 == own && p.1 == lookupName) with
      | some _ => ⟨Except.ok own, true⟩
      | none =>
        match lookupIdx contacts.byNickname lookupName with
        | some ship => ⟨Except.ok ship, true⟩
        | none =>
          ⟨Except.error
            (("Could not find a contact with the nickname \"") ++ nameOrShip ++ ("\"")),
            true⟩

/-! ## History normalization (formatDmHistory) -/

/-- The `content` field of a raw memo as the code inspects it:
`memo.content && Array.isArray(memo.content)` distinguishes a missing
field, a `null`, a truthy non-array, and an array of blocks. -/
inductive ContentField where
  | missing : ContentField
  | nullv : ContentField
  | notArray : ContentField
  | blocks : List (Option (List String)) → ContentField
deriving DecidableEq

/-- A raw memo: author, content blocks and epoch-millisecond send time.
A block is its optional `inline` word list. -/
structure RawMemo where
  author : String
  content : ContentField
  sent : Int
deriving DecidableEq

/-- A raw history entry: the optional `memo` field. -/
structure RawEntry where
  memo : Option RawMemo
deriving DecidableEq

/-- A normalized message as pushed by `formatDmHistory`. -/
structure Msg where
  id : String
  sender : String
  senderShip : String
  content : String
  sent : String
  timestamp : Int
deriving DecidableEq

/-- Model of `new Date(ms).toISOString()`; only its computability
matters here (no claim constrains the rendered text). -/
def toISOString (ms : Int) : String :=
  let day : Int := 86400000
  let days := ms.fdiv day
  let msOfDay := (ms - days * day).toNat
  let z := days + 719468
  let era := z.fdiv 146097
  let doe := (z - era * 146097).toNat
  let yoe := (doe - doe / 1460 + doe / 36524 - doe / 146096) / 365
  let y : Int := (yoe : Int) + era * 400
  let doy := doe - (365 * yoe + yoe / 4 - yoe / 100)
  let mp := (5 * doy + 2) / 153
  let d := doy - (153 * mp + 2) / 5 + 1
  let m := if mp < 10 then mp + 3 else mp - 9
  let year := if m ≤ 2 then y + 1 else y
  let pad2 := fun (n : Nat) => if n < 10 then ("0") ++ toString n else toString n
  let pad3 := fun (n : Nat) =>
    if n < 10 then ("00") ++ toString n
    else if n < 100 then ("0") ++ toString n else toString n
  toString year ++ ("-") ++ pad2 m ++ ("-") ++ pad2 d ++ ("T") ++
    pad2 (msOfDay / 3600000) ++ (":") ++ pad2 (msOfDay / 60000 % 60) ++ (":") ++
    pad2 (msOfDay / 1000 % 60) ++ (".") ++ pad3 (msOfDay % 1000) ++ ("Z")

/-- Text of one content block: `block.inline ? block.inline.join(" ") : ""`. -/
def blockText (b : Option (List String)) : String :=
  match b with
  | some xs => jsJoin (" ") xs
  | none => ("")

/-- The content string built by `formatDmHistory` for a memo: blocks are
joined by newlines and trimmed; a missing, null or non-array `content`
yields the empty string. -/
def extractText (c : ContentField) : String :=
  match c with
  | ContentField.blocks bs => jsTrim (jsJoin ("\n") (bs.map blockText))
  | _ => ("")

/-- The display name chosen by `formatDmHistory` (src/index.js:347-357):
our own ship is never displayed under a nickname; other senders get
`contacts?.byShip[senderShip]?.nickname || senderShip`. -/
def senderNameFor (contacts : Formatted) (own senderShip : String) : String :=
  if senderShip = own then own
  else
    match lookupIdx contacts.byShip senderShip with
    | some entry =>
      match entry.nickname with
      | some nick => if nick = ("") then senderShip else nick
      | none => senderShip
    | none => senderShip

/-- The message record pushed for one surviving history entry. -/
def mkMsg (id : String) (m : RawMemo) (contacts : Formatted) (own : String) : Msg :=
  let senderShip := withSigil m.author
  { id := id
    sender := senderNameFor contacts own senderShip
    senderShip := senderShip
    content := extractText m.content
    sent := toISOString m.sent
    timestamp := m.sent }

/-- The `forEach` accumulation of `formatDmHistory`: entries without a
`memo` are skipped, as would be entries whose sigil-normalized sender
were empty (that check never fires). -/
def mkMessages (contacts : Formatted) (own : String) :
    List (String × RawEntry) → List Msg
  | [] => []
  | (id, e) :: rest =>
    match e.memo with
    | none => mkMessages contacts own rest
    | some m =>
      if withSigil m.author = ("") then mkMessages contacts own rest
      else mkMsg id m contacts own :: mkMessages contacts own rest

/-- The sort relation of `messages.sort((a, b) => b.timestamp - a.timestamp)`:
`a` may precede `b` exactly when `b.timestamp ≤ a.timestamp`. -/
def msgGE (a b : Msg) : Prop := b.timestamp ≤ a.timestamp

instance : DecidableRel msgGE := fun a b =>
  inferInstanceAs (Decidable (b.timestamp ≤ a.timestamp))

instance : IsTotal Msg msgGE := ⟨fun a b => le_total b.timestamp a.timestamp⟩

instance : IsTrans Msg msgGE := ⟨fun _ _ _ h1 h2 => le_trans h2 h1⟩

/-- Model of `formatDmHistory` (src/index.js:323-386): accumulate the
surviving messages in iteration order, then sort them stably by
descending numeric timestamp. -/
def formatDmHistory (history : List (String × RawEntry)) (contacts : Formatted)
    (own : String) : List Msg :=
  List.insertionSort msgGE (mkMessages contacts own history)

/-! ## Session environment, responses and the two operations -/

/-- A response content item `{type, text}` in the FastMCP shape. -/
structure ContentItem where
  type : String
  text : String
deriving DecidableEq

/-- A tool response `{content: [...]}`. -/
structure Response where
  content : List ContentItem
deriving DecidableEq

/-- Outcomes of the remote calls an operation may make: the liveness
check `getOurName`, the single `connect` reconnect attempt, the chat
`poke`, and the `scry` by path, plus the session URL used in messages. -/
structure ApiEnv where
  getOurName : Except String Unit
  connect : Except String Unit
  poke : Except String Unit
  scry : String → Except String String
  url : String

/-- Model of `error.message || "Unknown error occurred"`. -/
def jsErrMsg (e : String) : String :=
  if e = ("") then ("Unknown error occurred") else e

/-- The catch-all error response `{content: [{type: "text", text: "Error: <m>"}]}`. -/
def mkErrorResponse (m : String) : Response :=
  ⟨[⟨("text"), ("Error: ") ++ m⟩]⟩

/-- Model of `createErrorResponse(error)` (src/index.js:486-496). -/
def createErrorResponse (e : String) : Response := mkErrorResponse (jsErrMsg e)

/-- The friendlier message substituted by `sendDm` when the error text
contains "PUT channel". -/
def putChannelMessage (url toShip : String) : String :=
  ("Failed to communicate with the ship. Please verify:\n1. Your ship is still running at ")
    ++ url ++
    ("\n2. You have the 'chat' app installed and running\n3. The recipient (")
    ++ toShip ++
    (") is valid and can receive DMs\n4. Try restarting the server if the issue persists")

/-- The error-message rewrite in the catch block of `sendDm`
(src/index.js:186-194). -/
def rewritePutChannel (url toShip m : String) : String :=
  if containsSub m.data (("PUT channel").data) then putChannelMessage url toShip else m

/-- The tail of `sendDm` once the session guard has passed: compose the
action and poke it (src/index.js:137-198). -/
def sendDmAfterGuard (env : ApiEnv) (toShip : String) : Response :=
  match env.poke with
  | Except.ok _ => ⟨[⟨("text"), ("Message sent to ") ++ toShip⟩]⟩
  | Except.error e => mkErrorResponse (rewritePutChannel env.url toShip (jsErrMsg e))

/-- Model of `sendDm` (src/index.js:113-200).  The second component
counts how many times `api.connect()` was attempted. -/
def sendDm (env : ApiEnv) (toShip : String) : Response × Nat :=
  match env.getOurName with
  | Except.ok _ => (sendDmAfterGuard env toShip, 0)
  | Except.error _ =>
    match env.connect with
    | Except.ok _ => (sendDmAfterGuard env toShip, 1)
    | Except.error _ =>
      (mkErrorResponse
        (rewritePutChannel env.url toShip
          ("Connection to ship lost and reconnection failed")), 1)

/-- The clamp `Math.max(1, Math.min(count, 500))` (src/index.js:214). -/
def cappedCount (count : Int) : Int := max 1 (min count 500)

/-- The scry path `` `/dm/${toShip}/writs/newest/${cappedCount}/light` ``. -/
def mkScryPath (toShip : String) (n : Int) : String :=
  ("/dm/") ++ toShip ++ ("/writs/newest/") ++ toString n ++ ("/light")

/-- Outcome of `readDmHistory`: the response, the number of `connect`
attempts, and the path of the history scry if one was issued. -/
structure ReadOut where
  resp : Response
  connects : Nat
  scryPath : Option String
deriving DecidableEq

/-- The scry-and-respond tail of `readDmHistory`. -/
def readDmHistoryScry (env : ApiEnv) (path : String) (connects : Nat) : ReadOut :=
  match env.scry path with
  | Except.ok h => ⟨⟨[⟨("text"), h⟩]⟩, connects, some path⟩
  | Except.error e => ⟨mkErrorResponse (jsErrMsg e), connects, some path⟩

/-- Model of `readDmHistory` (src/index.js:211-251).  The guard catches
a failing liveness check and retries `connect` once with no inner catch:
a reconnect failure propagates to the outer catch. -/
def readDmHistory (env : ApiEnv) (toShip : String) (count : Int) : ReadOut :=
  let path := mkScryPath toShip (cappedCount count)
  match env.getOurName with
  | Except.ok _ => readDmHistoryScry env path 0
  | Except.error _ =>
    match env.connect with
    | Except.ok _ => readDmHistoryScry env path 1
    | Except.error e => ⟨mkErrorResponse (jsErrMsg e), 1, none⟩

/-- Model of the `send-dm` tool `execute` (src/index.js:555-572): a
sigil-prefixed recipient is used directly, otherwise it is resolved; any
thrown error becomes a structured error response. -/
def sendDmTool (env : ApiEnv) (fetch : Except String RawContacts)
    (own recipient : String) : Response :=
  if startsWithSigil recipient then (sendDm env recipient).1
  else
    match (resolveShipName fetch recipient own).result with
    | Except.ok r => (sendDm env r).1
    | Except.error e => createErrorResponse e

/-! ## C2: history output is sorted by descending numeric timestamp -/

/-- C2: for every raw history mapping, contact directory and own
identity, the sequence returned by `formatDmHistory` is sorted in
descending order of the numeric send-timestamp (newest first),
regardless of the iteration order of the input. -/
theorem c2_history_sorted_desc (history : List (String × RawEntry))
    (contacts : Formatted) (own : String) :
    List.Sorted (fun a b => b.timestamp ≤ a.timestamp)
      (formatDmHistory history contacts own) :=
  List.sorted_insertionSort msgGE (mkMessages contacts own history)

/-! ## C4: the remote history query count is clamped to [1, 500] -/

/-- C4: the count used in the remote history query path is the input
clamped to [1, 500]: 1000 is bounded to 500, zero or negative inputs to
1, and every issued scry uses the clamped count in its path. -/
theorem c4_count_clamped (count : Int) (env : ApiEnv) (toShip : String) :
    (1 ≤ cappedCount count ∧ cappedCount count ≤ 500) ∧
    cappedCount 1000 = 500 ∧
    (count ≤ 0 → cappedCount count = 1) ∧
    (1 ≤ count → count ≤ 500 → cappedCount count = count) ∧
    ((readDmHistory env toShip count).scryPath = none ∨
      (readDmHistory env toShip count).scryPath =
        some (mkScryPath toShip (cappedCount count))) := by
  refine ⟨⟨?_, ?_⟩, by decide, ?_, ?_, ?_⟩
  · unfold cappedCount
    omega
  · unfold cappedCount
    omega
  · intro hc
    unfold cappedCount
    omega
  · intro h1 h2
    unfold cappedCount
    omega
  · unfold readDmHistory
    cases env.getOurName with
    | ok _ =>
      simp only [readDmHistoryScry]
      cases env.scry (mkScryPath toShip (cappedCount count)) <;> simp
    | error e =>
      cases env.connect with
      | ok _ =>
        simp only [readDmHistoryScry]
        cases env.scry (mkScryPath toShip (cappedCount count)) <;> simp
      | error e2 => simp

/-- Witness for C4 at the concrete input `count = -3`. -/
theorem c4_count_clamped_witness :
    cappedCount (-3) = 1 :=
  (c4_count_clamped (-3)
      ⟨Except.ok (), Except.ok (), Except.ok (), fun _ => Except.ok (""), ("u")⟩
      ("~bus")).2.2.1 (by decide)

/-! ## C5: self-references resolve to the own identity without a fetch -/

/-- C5: any input whose lower-cased form is in the self-reference
vocabulary resolves to the caller's own identity, for every possible
contacts-fetch outcome, and without the contacts fetch occurring. -/
theorem c5_self_reference (fetch : Except String RawContacts) (s own : String)
    (h : selfReferences.contains (jsToLower s) = true) :
    resolveShipName fetch s own = ⟨Except.ok own, false⟩ := by
  have hs : ¬ s = ("") := by
    intro he
    subst he
    exact absurd h (by decide)
  unfold resolveShipName
  rw [if_neg hs, if_pos h]

/-- Witness for C5 at the concrete input `"SELF"` with a failing fetch. -/
theorem c5_self_reference_witness :
    resolveShipName (Except.error ("boom")) ("SELF") ("~zod") =
      ⟨Except.ok ("~zod"), false⟩ :=
  c5_self_reference (Except.error ("boom")) ("SELF") ("~zod") (by decide)

/-! ## C6: null contact records are excluded from every index -/

/-- Entries with a null record contribute nothing to the accumulated
indices: filtering them out of the input leaves the fold unchanged. -/
theorem formatContactsAux_filter (l : RawContacts) (acc : Formatted) :
    formatContactsAux acc l =
      formatContactsAux acc (List.filter (fun p => p.2.isSome) l) := by
  induction l generalizing acc with
  | nil => rfl
  | cons hd tl ih =>
    obtain ⟨ship, data⟩ := hd
    cases data with
    | none => simpa [formatContactsAux] using ih acc
    | some d => simpa [formatContactsAux] using ih (formatContactsStep acc ship d)

/-- C6: for every raw contacts mapping, entries whose record is null are
excluded from all four indices built by `formatContacts`: the directory
equals the one built from the input with those entries removed. -/
theorem c6_null_records_skipped (contacts : RawContacts) :
    formatContacts contacts =
      formatContacts (List.filter (fun p => p.2.isSome) contacts) :=
  formatContactsAux_filter contacts ⟨[], [], [], []⟩

/-! ## Helper lemmas about the string and index primitives -/

/-- The lower-cased string is empty exactly when the input is. -/
theorem jsToLower_eq_empty_iff (s : String) : jsToLower s = ("") ↔ s = ("") := by
  unfold jsToLower
  constructor
  · intro h
    have hd : (String.mk (s.data.map Char.toLower)).data = String.data ("") :=
      congrArg String.data h
    simp only [List.map_eq_nil_iff] at hd
    cases s with
    | mk d =>
      cases hd
      rfl
  · intro h
    subst h
    rfl

/-- Sigil-normalized strings start with the sigil. -/
theorem startsWithSigil_withSigil (s : String) : startsWithSigil (withSigil s) = true := by
  unfold withSigil
  by_cases h : startsWithSigil s = true
  · rw [if_pos h]
    exact h
  · rw [if_neg h]
    rfl

/-- An `upsert` result only holds pairs from the original list or the
inserted pair. -/
theorem mem_upsert {l : List (String × α)} {k : String} {v : α} {p : String × α}
    (hp : p ∈ upsert l k v) : p ∈ l ∨ p = (k, v) := by
  unfold upsert at hp
  by_cases h : l.any (fun q => q.1 == k) = true
  · rw [if_pos h] at hp
    rcases List.mem_map.mp hp with ⟨q, hq, he⟩
    by_cases hk : q.1 == k
    · right
      rw [if_pos hk] at he
      exact he.symm
    · left
      rw [if_neg hk] at he
      exact he ▸ hq
  · rw [if_neg h] at hp
    rcases List.mem_append.mp hp with hl | hr
    · exact Or.inl hl
    · exact Or.inr (List.mem_singleton.mp hr)

/-- A successful `lookupIdx` returns the value of a pair of the list. -/
theorem lookupIdx_mem {l : List (String × α)} {k : String} {v : α}
    (h : lookupIdx l k = some v) : ∃ p ∈ l, p.2 = v := by
  unfold lookupIdx at h
  cases hf : l.find? (fun p => p.1 == k) with
  | none => rw [hf] at h; cases h
  | some p =>
    rw [hf] at h
    refine ⟨p, List.mem_of_find?_eq_some hf, ?_⟩
    cases h
    rfl

/-- A failed `lookupIdx` means no pair of the list has the key. -/
theorem lookupIdx_none {l : List (String × α)} {k : String}
    (h : lookupIdx l k = none) : ∀ p ∈ l, (p.1 == k) = false := by
  unfold lookupIdx at h
  cases hf : l.find? (fun p => p.1 == k) with
  | none =>
    intro p hp
    exact Bool.of_not_eq_true (List.find?_eq_none.mp hf p hp)
  | some p => rw [hf] at h; cases h

/-- The `byNickname` index written by one directory-fold step: only a
non-empty string nickname adds (or overwrites) a key, whose value is the
sigil-normalized ship. -/
theorem formatContactsStep_byNickname (acc : Formatted) (ship : String) (d : ContactData) :
    (formatContactsStep acc ship d).byNickname =
      match d.nickname with
      | some nick =>
        if nick = ("") then acc.byNickname
        else upsert acc.byNickname (jsToLower nick) (withSigil ship)
      | none => acc.byNickname := by
  unfold formatContactsStep
  cases d.nickname <;> cases d.email <;> cases d.phone <;> dsimp only <;>
    (repeat' split) <;> rfl

/-- Every value of the `byNickname` index built by the directory fold is
sigil-normalized (the invariant is preserved from the accumulator). -/
theorem formatContactsAux_byNickname_sigil (l : RawContacts) (acc : Formatted)
    (hacc : ∀ p ∈ acc.byNickname, startsWithSigil p.2 = true) :
    ∀ p ∈ (formatContactsAux acc l).byNickname, startsWithSigil p.2 = true := by
  induction l generalizing acc with
  | nil => exact hacc
  | cons hd tl ih =>
    obtain ⟨ship, data⟩ := hd
    cases data with
    | none => exact ih acc hacc
    | some d =>
      apply ih
      intro p hp
      rw [formatContactsStep_byNickname] at hp
      cases hn : d.nickname with
      | none => rw [hn] at hp; exact hacc p (by dsimp only at hp; exact hp)
      | some nick =>
        rw [hn] at hp
        dsimp only at hp
        by_cases h0 : nick = ("")
        · rw [if_pos h0] at hp
          exact hacc p hp
        · rw [if_neg h0] at hp
          rcases mem_upsert hp with hql | hqe
          · exact hacc p hql
          · rw [hqe]
            exact startsWithSigil_withSigil ship

/-- A character list starts with itself before any continuation. -/
theorem startsList_append_self (p t : List Char) : startsList (p ++ t) p = true := by
  induction p with
  | nil => cases t <;> rfl
  | cons c cs ih => simp [startsList, ih]

/-- The empty needle is contained in every haystack. -/
theorem containsSub_nil (l : List Char) : containsSub l [] = true := by
  cases l <;> rfl

/-- A needle is contained in any haystack that embeds it between a
prefix part and a suffix part. -/
theorem containsSub_append (pre sub post : List Char) :
    containsSub (pre ++ (sub ++ post)) sub = true := by
  induction pre with
  | nil =>
    unfold containsSub
    rw [List.nil_append, startsList_append_self]
    simp
  | cons c cs ih =>
    unfold containsSub
    rw [List.cons_append]
    simp [ih]

/-- Appending to a non-empty string stays non-empty. -/
theorem append_left_ne_empty (a b : String) (ha : a.data ≠ []) : a ++ b ≠ ("") := by
  intro h
  apply ha
  have hd := congrArg String.data h
  rw [String.data_append] at hd
  have h0 : String.data ("") = [] := rfl
  rw [h0] at hd
  exact (List.append_eq_nil.mp hd).1

/-! ## C7: nickname resolution is case-insensitive -/

/-- Successful resolution of a non-sigil input depends only on the
lower-cased form of the input. -/
theorem resolve_ok_mono (fetch : Except String RawContacts) (own s t : String)
    (h : jsToLower s = jsToLower t)
    (hs : startsWithSigil s = false) (ht : startsWithSigil t = false)
    (r : String)
    (hr : (resolveShipName fetch s own).result = Except.ok r) :
    (resolveShipName fetch t own).result = Except.ok r := by
  have hse : ¬ s = ("") := by
    intro he
    subst he
    simp [resolveShipName] at hr
  have hte : ¬ t = ("") := by
    intro he
    apply hse
    apply (jsToLower_eq_empty_iff s).mp
    rw [h, he]
    rfl
  unfold resolveShipName at hr ⊢
  rw [if_neg hse, h] at hr
  rw [if_neg hte]
  by_cases hc : selfReferences.contains (jsToLower t) = true
  · rw [if_pos hc] at hr
    rw [if_pos hc]
    exact hr
  · rw [if_neg hc] at hr
    rw [if_neg hc]
    rw [if_neg (show ¬ startsWithSigil s = true by simp [hs])] at hr
    rw [if_neg (show ¬ startsWithSigil t = true by simp [ht])]
    cases fetch with
    | error e => simp at hr
    | ok raw =>
      dsimp only at hr ⊢
      cases hf : (formatContacts raw).byNickname.find?
          (fun p => p.2 == own && p.1 == jsToLower t) with
      | some q =>
        rw [hf] at hr
        exact hr
      | none =>
        rw [hf] at hr
        dsimp only at hr ⊢
        cases hl : lookupIdx (formatContacts raw).byNickname (jsToLower t) with
        | some ship =>
          rw [hl] at hr
          exact hr
        | none =>
          rw [hl] at hr
          dsimp only at hr
          exact absurd hr (by simp)

/-- C7: the directory indexes nicknames lower-cased and the resolver
lower-cases the query, so two non-sigil inputs that agree up to letter
case resolve identically; and every identity a nickname resolves to is
sigil-normalized. -/
theorem c7_nickname_case_insensitive (fetch : Except String RawContacts)
    (own s1 s2 : String) (h : jsToLower s1 = jsToLower s2)
    (h1 : startsWithSigil s1 = false) (h2 : startsWithSigil s2 = false) :
    (∀ r, (resolveShipName fetch s1 own).result = Except.ok r ↔
          (resolveShipName fetch s2 own).result = Except.ok r) ∧
    (∀ (raw : RawContacts) (k v : String),
        lookupIdx (formatContacts raw).byNickname k = some v →
          startsWithSigil v = true) := by
  constructor
  · intro r
    exact ⟨resolve_ok_mono fetch own s1 s2 h h1 h2 r,
           resolve_ok_mono fetch own s2 s1 h.symm h2 h1 r⟩
  · intro raw k v hkv
    rcases lookupIdx_mem hkv with ⟨p, hp, hpv⟩
    rw [← hpv]
    exact formatContactsAux_byNickname_sigil raw ⟨[], [], [], []⟩
      (by intro q hq; cases hq) p hp

/-- Witness for C7: `"bob"` and `"BOB"` both resolve to `~sampel-palnet`
against the directory built from `{"sampel-palnet": {nickname: "Bob"}}`. -/
theorem c7_nickname_case_insensitive_witness :
    (resolveShipName
        (Except.ok [(("sampel-palnet"), some ⟨some ("Bob"), none, none⟩)])
        ("BOB") ("~zod")).result = Except.ok ("~sampel-palnet") := by
  have hiff :=
    (c7_nickname_case_insensitive
        (Except.ok [(("sampel-palnet"), some ⟨some ("Bob"), none, none⟩)])
        ("~zod") ("bob") ("BOB") (by decide) (by decide) (by decide)).1
      ("~sampel-palnet")
  exact hiff.mp (by decide)

/-! ## C9: unresolvable recipients yield a structured error response -/

/-- C9: a send-dm invocation whose recipient has no sigil, is no
self-reference and matches no nickname returns a structured
`Error: ...` text response whose text contains the original input; no
exception escapes the tool boundary (the model is a total function into
responses). -/
theorem c9_unresolvable_recipient (env : ApiEnv) (raw : RawContacts)
    (own recipient : String)
    (hsig : startsWithSigil recipient = false)
    (hself : selfReferences.contains (jsToLower recipient) = false)
    (hnick : lookupIdx (formatContacts raw).byNickname (jsToLower recipient) = none) :
    ∃ t : String,
      sendDmTool env (Except.ok raw) own recipient = ⟨[⟨("text"), t⟩]⟩ ∧
      startsList t.data (("Error: ").data) = true ∧
      containsSub t.data recipient.data = true := by
  unfold sendDmTool
  rw [if_neg (show ¬ startsWithSigil recipient = true by simp [hsig])]
  by_cases he : recipient = ("")
  · subst he
    refine ⟨("Error: Name or ship ID is required"), ?_, by decide, containsSub_nil _⟩
    have hres : (resolveShipName (Except.ok raw) ("") own).result =
        Except.error ("Name or ship ID is required") := by
      unfold resolveShipName
      rw [if_pos rfl]
    rw [hres]
    dsimp only
    decide
  · have hres : (resolveShipName (Except.ok raw) recipient own).result =
        Except.error
          (("Could not find a contact with the nickname \"") ++ recipient ++ ("\"")) := by
      unfold resolveShipName
      rw [if_neg he,
        if_neg (show ¬ selfReferences.contains (jsToLower recipient) = true by
          rw [hself]; decide),
        if_neg (show ¬ startsWithSigil recipient = true by simp [hsig])]
      dsimp only
      have hfind : (formatContacts raw).byNickname.find?
          (fun p => p.2 == own && p.1 == jsToLower recipient) = none := by
        apply List.find?_eq_none.mpr
        intro p hp
        have h1 := lookupIdx_none hnick p hp
        simp [h1]
      rw [hfind]
      dsimp only
      rw [hnick]
    rw [hres]
    dsimp only
    have hmsg : (("Could not find a contact with the nickname \"") ++ recipient ++ ("\"")) ≠ ("") :=
      append_left_ne_empty _ _
        (append_left_ne_empty ("Could not find a contact with the nickname \"") recipient
            (by decide) ∘ String.ext)
    refine ⟨("Error: ") ++
        (("Could not find a contact with the nickname \"") ++ recipient ++ ("\"")), ?_, ?_, ?_⟩
    · unfold createErrorResponse mkErrorResponse jsErrMsg
      rw [if_neg hmsg]
    · rw [String.data_append]
      exact startsList_append_self _ _
    · have hd : ((("Error: ") ++
          (("Could not find a contact with the nickname \"") ++ recipient ++ ("\""))).data) =
          ((("Error: ").data ++ ("Could not find a contact with the nickname \"").data) ++
            (recipient.data ++ ("\"").data)) := by
        simp [String.data_append]
      rw [hd]
      exact containsSub_append _ _ _

/-- Witness for C9 at a concrete unresolvable recipient. -/
theorem c9_unresolvable_recipient_witness :
    ∃ t : String,
      sendDmTool
          ⟨Except.ok (), Except.ok (), Except.ok (), fun _ => Except.ok (""), ("u")⟩
          (Except.ok [(("sampel-palnet"), some ⟨some ("Pal"), none, none⟩)])
          ("~zod") ("nobody") = ⟨[⟨("text"), t⟩]⟩ ∧
      startsList t.data (("Error: ").data) = true ∧
      containsSub t.data (("nobody") : String).data = true :=
  c9_unresolvable_recipient
    ⟨Except.ok (), Except.ok (), Except.ok (), fun _ => Except.ok (""), ("u")⟩
    [(("sampel-palnet"), some ⟨some ("Pal"), none, none⟩)]
    ("~zod") ("nobody") (by decide) (by decide) (by decide)

/-! ## Membership lemmas for the history normalizer -/

/-- Sigil normalization never produces the empty string. -/
theorem withSigil_ne_empty (s : String) : ¬ withSigil s = ("") := by
  unfold withSigil
  by_cases h : startsWithSigil s = true
  · rw [if_pos h]
    intro he
    subst he
    exact absurd h (by decide)
  · rw [if_neg h]
    intro he
    exact absurd (congrArg String.data he) (by simp)

/-- Membership in the normalized history equals membership in the
pre-sort accumulation. -/
theorem mem_formatDmHistory_iff (h : List (String × RawEntry)) (c : Formatted)
    (own : String) (msg : Msg) :
    msg ∈ formatDmHistory h c own ↔ msg ∈ mkMessages c own h :=
  (List.perm_insertionSort msgGE (mkMessages c own h)).mem_iff

/-- Every accumulated message comes from an entry with a present memo. -/
theorem mem_mkMessages {c : Formatted} {own : String} {l : List (String × RawEntry)}
    {msg : Msg} (h : msg ∈ mkMessages c own l) :
    ∃ i e m, (i, e) ∈ l ∧ e.memo = some m ∧ msg = mkMsg i m c own := by
  induction l with
  | nil => cases h
  | cons hd tl ih =>
    obtain ⟨i, e⟩ := hd
    cases hme : e.memo with
    | none =>
      rw [mkMessages, hme] at h
      obtain ⟨i1, e1, m1, hm1, hm2, hm3⟩ := ih h
      exact ⟨i1, e1, m1, List.mem_cons_of_mem _ hm1, hm2, hm3⟩
    | some m =>
      rw [mkMessages, hme] at h
      dsimp only at h
      rw [if_neg (withSigil_ne_empty m.author)] at h
      rcases List.mem_cons.mp h with he | ht
      · exact ⟨i, e, m, List.mem_cons_self _ _, hme, he⟩
      · obtain ⟨i1, e1, m1, hm1, hm2, hm3⟩ := ih ht
        exact ⟨i1, e1, m1, List.mem_cons_of_mem _ hm1, hm2, hm3⟩

/-- Every entry with a present memo contributes its message to the
accumulation. -/
theorem mkMsg_mem_mkMessages {c : Formatted} {own : String}
    {l : List (String × RawEntry)} {i : String} {e : RawEntry} {m : RawMemo}
    (hl : (i, e) ∈ l) (hm : e.memo = some m) :
    mkMsg i m c own ∈ mkMessages c own l := by
  induction l with
  | nil => cases hl
  | cons hd tl ih =>
    rcases List.mem_cons.mp hl with he | ht
    · subst he
      rw [mkMessages, hm]
      dsimp only
      rw [if_neg (withSigil_ne_empty m.author)]
      exact List.mem_cons_self _ _
    · obtain ⟨i1, e1⟩ := hd
      cases hme : e1.memo with
      | none =>
        rw [mkMessages, hme]
        exact ih ht
      | some m1 =>
        rw [mkMessages, hme]
        dsimp only
        rw [if_neg (withSigil_ne_empty m1.author)]
        exact List.mem_cons_of_mem _ (ih ht)

/-- The accumulation keeps exactly the entries whose memo is present. -/
theorem length_mkMessages (c : Formatted) (own : String)
    (l : List (String × RawEntry)) :
    (mkMessages c own l).length = l.countP (fun p => p.2.memo.isSome) := by
  induction l with
  | nil => rfl
  | cons hd tl ih =>
    obtain ⟨i, e⟩ := hd
    cases hme : e.memo with
    | none => simp [mkMessages, hme, List.countP_cons, ih]
    | some m =>
      rw [mkMessages, hme]
      dsimp only
      rw [if_neg (withSigil_ne_empty m.author)]
      simp [List.countP_cons, hme, ih]

/-- The sender-ship field of an accumulated message. -/
theorem mkMsg_senderShip (i : String) (m : RawMemo) (c : Formatted) (own : String) :
    (mkMsg i m c own).senderShip = withSigil m.author := rfl

/-- The display-name field of an accumulated message. -/
theorem mkMsg_sender (i : String) (m : RawMemo) (c : Formatted) (own : String) :
    (mkMsg i m c own).sender = senderNameFor c own (withSigil m.author) := rfl

/-! ## C3: display names (corrected for falsy empty nicknames) -/

/-- C3 counterexample: with a directory record whose nickname is present
but is the empty string, the message of that sender is displayed under
the raw identity, not under the (present) nickname. -/
theorem c3_display_name_counterexample :
    (formatDmHistory [(("x"), ⟨some ⟨("bob"), ContentField.blocks [], 5⟩⟩)]
        (formatContacts [(("bob"), some ⟨some (""), none, none⟩)])
        ("~zod")).map Msg.sender = [("~bob")] ∧
    (lookupIdx (formatContacts [(("bob"), some ⟨some (""), none, none⟩)]).byShip
        ("~bob")).map ShipEntry.nickname = some (some ("")) ∧
    (("~bob") : String) ≠ ("") := by
  refine ⟨by decide, by decide, by decide⟩

/-- C3 (amended): a sender equal to the own identity is always displayed
under the raw identity, never a nickname; any other sender is displayed
under the directory nickname when one is present and non-empty, and
under the raw sigil-normalized identity otherwise. -/
theorem c3_display_name (h : List (String × RawEntry)) (c : Formatted) (own : String)
    (msg : Msg) (hm : msg ∈ formatDmHistory h c own) :
    (msg.senderShip = own → msg.sender = own) ∧
    (msg.senderShip ≠ own →
      msg.sender =
        match Option.bind (lookupIdx c.byShip msg.senderShip) ShipEntry.nickname with
        | some nick => if nick = ("") then msg.senderShip else nick
        | none => msg.senderShip) := by
  have hmem : msg ∈ mkMessages c own h := (mem_formatDmHistory_iff h c own msg).mp hm
  obtain ⟨i, e, m, -, -, rfl⟩ := mem_mkMessages hmem
  rw [mkMsg_senderShip, mkMsg_sender]
  constructor
  · intro hss
    unfold senderNameFor
    rw [if_pos hss]
  · intro hss
    unfold senderNameFor
    rw [if_neg hss]
    cases hl : lookupIdx c.byShip (withSigil m.author) with
    | none => rfl
    | some entry =>
      cases hn : entry.nickname with
      | none => rfl
      | some nick => rfl

/-- Witness for C3 at a concrete history and directory. -/
theorem c3_display_name_witness :
    ((Msg.mk ("a") ("Pal") ("~sampel-palnet") ("") (toISOString 100) 100).senderShip
        = ("~zod") →
      (Msg.mk ("a") ("Pal") ("~sampel-palnet") ("") (toISOString 100) 100).sender
        = ("~zod")) ∧
    ((Msg.mk ("a") ("Pal") ("~sampel-palnet") ("") (toISOString 100) 100).senderShip
        ≠ ("~zod") →
      (Msg.mk ("a") ("Pal") ("~sampel-palnet") ("") (toISOString 100) 100).sender =
        match Option.bind
            (lookupIdx (formatContacts
              [(("sampel-palnet"), some ⟨some ("Pal"), none, none⟩)]).byShip
              (Msg.mk ("a") ("Pal") ("~sampel-palnet") ("") (toISOString 100) 100).senderShip)
            ShipEntry.nickname with
        | some nick =>
          if nick = ("")
          then (Msg.mk ("a") ("Pal") ("~sampel-palnet") ("") (toISOString 100) 100).senderShip
          else nick
        | none =>
          (Msg.mk ("a") ("Pal") ("~sampel-palnet") ("") (toISOString 100) 100).senderShip) :=
  c3_display_name
    [(("a"), ⟨some ⟨("sampel-palnet"), ContentField.missing, 100⟩⟩)]
    (formatContacts [(("sampel-palnet"), some ⟨some ("Pal"), none, none⟩)])
    ("~zod")
    (Msg.mk ("a") ("Pal") ("~sampel-palnet") ("") (toISOString 100) 100)
    (by decide)

/-! ## C10: only memo-less entries are skipped; degenerate content is empty -/

/-- A block list with no inline fields renders to a list of empty strings. -/
theorem map_blockText_none {bs : List (Option (List String))}
    (h : ∀ b ∈ bs, b = none) : bs.map blockText = List.replicate bs.length ("") := by
  induction bs with
  | nil => rfl
  | cons b tl ih =>
    have hb : b = none := h b (List.mem_cons_self _ _)
    subst hb
    rw [List.map_cons, List.length_cons, List.replicate_succ]
    rw [ih (fun b hb => h b (List.mem_cons_of_mem _ hb))]
    rfl

/-- Unfolding equation of `jsJoin` on a list with at least two items. -/
theorem jsJoin_cons_cons (sep x y : String) (t : List String) :
    jsJoin sep (x :: y :: t) = x ++ sep ++ jsJoin sep (y :: t) := rfl

/-- Joining empty strings with newlines yields only newline characters. -/
theorem jsJoin_replicate_empty_chars (n : Nat) :
    ∀ c ∈ (jsJoin ("\n") (List.replicate n (""))).data, c = '\n' := by
  induction n with
  | zero => intro c hc; cases hc
  | succ k ih =>
    cases k with
    | zero => intro c hc; cases hc
    | succ j =>
      intro c hc
      rw [List.replicate_succ, List.replicate_succ, jsJoin_cons_cons] at hc
      have hd : ((("") ++ ("\n") ++ jsJoin ("\n") (("") :: List.replicate j (""))).data) =
          '\n' :: (jsJoin ("\n") (("") :: List.replicate j (""))).data := by
        rw [String.data_append, String.data_append]
        rfl
      rw [hd] at hc
      rcases List.mem_cons.mp hc with he | ht
      · exact he
      · rw [← List.replicate_succ] at ht
        exact ih c ht

/-- Trimming a whitespace-only string yields the empty string. -/
theorem jsTrim_eq_empty {s : String} (h : ∀ c ∈ s.data, Char.isWhitespace c = true) :
    jsTrim s = ("") := by
  unfold jsTrim
  have h1 : s.data.dropWhile Char.isWhitespace = [] := List.dropWhile_eq_nil_iff.mpr h
  rw [h1]
  rfl

/-- C10: the history normalizer skips exactly the entries whose memo is
absent; an entry with a memo whose content is missing, null or a
non-array is included with empty text; and blocks without an inline
field contribute empty text. -/
theorem c10_degenerate_content (h : List (String × RawEntry)) (c : Formatted)
    (own : String) :
    (formatDmHistory h c own).length = h.countP (fun p => p.2.memo.isSome) ∧
    (∀ p ∈ h, ∀ m, p.2.memo = some m →
      (m.content = ContentField.missing ∨ m.content = ContentField.nullv ∨
        m.content = ContentField.notArray) →
      ∃ msg ∈ formatDmHistory h c own,
        msg.id = p.1 ∧ msg.timestamp = m.sent ∧ msg.content = ("")) ∧
    (∀ bs : List (Option (List String)), (∀ b ∈ bs, b = none) →
      extractText (ContentField.blocks bs) = ("")) := by
  refine ⟨?_, ?_, ?_⟩
  · unfold formatDmHistory
    rw [(List.perm_insertionSort msgGE (mkMessages c own h)).length_eq]
    exact length_mkMessages c own h
  · rintro ⟨i, e⟩ hp m hm hdeg
    refine ⟨mkMsg i m c own, (mem_formatDmHistory_iff h c own _).mpr
      (mkMsg_mem_mkMessages hp hm), rfl, rfl, ?_⟩
    show extractText m.content = ("")
    rcases hdeg with h1 | h1 | h1 <;> rw [h1] <;> rfl
  · intro bs hbs
    show jsTrim (jsJoin ("\n") (bs.map blockText)) = ("")
    rw [map_blockText_none hbs]
    apply jsTrim_eq_empty
    intro ch hch
    rw [jsJoin_replicate_empty_chars bs.length ch hch]
    rfl

/-- Witness for C10 at a concrete one-entry history whose memo has a
null content. -/
theorem c10_degenerate_content_witness :
    ∃ msg ∈ formatDmHistory [(("k"), ⟨some ⟨("bob"), ContentField.nullv, 7⟩⟩)]
        (formatContacts []) ("~zod"),
      msg.id = ("k") ∧ msg.timestamp = (7 : Int) ∧ msg.content = ("") :=
  (c10_degenerate_content [(("k"), ⟨some ⟨("bob"), ContentField.nullv, 7⟩⟩)]
      (formatContacts []) ("~zod")).2.1
    (("k"), ⟨some ⟨("bob"), ContentField.nullv, 7⟩⟩) (by decide)
    ⟨("bob"), ContentField.nullv, 7⟩ rfl (Or.inr (Or.inl rfl))

/-! ## C8: the bounded reconnect of the session guard (corrected) -/

/-- C8 counterexample: when the liveness check and the reconnect both
fail, `sendDm` fails with the fixed message `Connection to ship lost and
reconnection failed`, which carries neither the original error
(`boom-live`) nor the reconnect error (`boom-reconn`); and
`readDmHistory` fails with the bare reconnect error instead of a
session-lost error. -/
theorem c8_session_guard_counterexample :
    (sendDm
        ⟨Except.error ("boom-live"), Except.error ("boom-reconn"), Except.ok (),
          fun _ => Except.ok (""), ("http://x")⟩ ("~bus")).1 =
      mkErrorResponse ("Connection to ship lost and reconnection failed") ∧
    containsSub (("Error: Connection to ship lost and reconnection failed").data)
      (("boom-live").data) = false ∧
    containsSub (("Error: Connection to ship lost and reconnection failed").data)
      (("boom-reconn").data) = false ∧
    (readDmHistory
        ⟨Except.error ("boom-live"), Except.error ("boom-reconn"), Except.ok (),
          fun _ => Except.ok (""), ("http://x")⟩ ("~bus") 10).resp =
      mkErrorResponse ("boom-reconn") ∧
    (sendDm
        ⟨Except.error ("boom-live"), Except.error ("boom-reconn"), Except.ok (),
          fun _ => Except.ok (""), ("http://x")⟩ ("~bus")).2 = 1 := by
  refine ⟨by decide, by decide, by decide, by decide, by decide⟩

/-- C8 (amended): the liveness check is followed by exactly one
reconnect attempt when it fails; a successful reconnect lets the
operation proceed exactly as with a live session; a failed reconnect
makes `sendDm` fail with the fixed connection-lost message (not carrying
the underlying errors) and makes `readDmHistory` fail with the reconnect
error itself; no further reconnect attempts occur in either operation. -/
theorem c8_session_guard (env : ApiEnv) (toShip : String) (count : Int) :
    (env.getOurName = Except.ok () →
      (sendDm env toShip).2 = 0 ∧ (readDmHistory env toShip count).connects = 0) ∧
    (∀ e, env.getOurName = Except.error e →
      (sendDm env toShip).2 = 1 ∧ (readDmHistory env toShip count).connects = 1) ∧
    (∀ e, env.getOurName = Except.error e → env.connect = Except.ok () →
      (sendDm env toShip).1 =
        (sendDm { env with getOurName := Except.ok () } toShip).1 ∧
      (readDmHistory env toShip count).resp =
        (readDmHistory { env with getOurName := Except.ok () } toShip count).resp) ∧
    (∀ e1 e2, env.getOurName = Except.error e1 → env.connect = Except.error e2 →
      (sendDm env toShip).1 =
        mkErrorResponse ("Connection to ship lost and reconnection failed") ∧
      (readDmHistory env toShip count).resp = mkErrorResponse (jsErrMsg e2)) := by
  refine ⟨?_, ?_, ?_, ?_⟩
  · intro hl
    unfold sendDm readDmHistory
    rw [hl]
    cases hs : env.scry (mkScryPath toShip (cappedCount count)) <;>
      simp [readDmHistoryScry, hs]
  · intro e hl
    unfold sendDm readDmHistory
    rw [hl]
    cases hc : env.connect with
    | ok _ =>
      cases hs : env.scry (mkScryPath toShip (cappedCount count)) <;>
        simp [readDmHistoryScry, hs]
    | error e2 => simp
  · intro e hl hc
    constructor
    · unfold sendDm
      rw [hl, hc]
      rfl
    · unfold readDmHistory
      rw [hl, hc]
      dsimp only
      cases hs : env.scry (mkScryPath toShip (cappedCount count)) <;>
        simp [readDmHistoryScry, hs]
  · intro e1 e2 hl hc
    unfold sendDm readDmHistory
    rw [hl, hc]
    dsimp only
    constructor
    · rw [show rewritePutChannel env.url toShip
          ("Connection to ship lost and reconnection failed") =
          ("Connection to ship lost and reconnection failed") from by
        unfold rewritePutChannel
        rw [if_neg (by decide)]]
    · rfl

/-- Witness for C8 at a concrete environment whose liveness check fails
and whose reconnect succeeds. -/
theorem c8_session_guard_witness :
    (sendDm
        ⟨Except.error ("down"), Except.ok (), Except.ok (),
          fun _ => Except.ok ("{}"), ("http://x")⟩ ("~bus")).1 =
      (sendDm
        ⟨Except.ok (), Except.ok (), Except.ok (),
          fun _ => Except.ok ("{}"), ("http://x")⟩ ("~bus")).1 ∧
    (readDmHistory
        ⟨Except.error ("down"), Except.ok (), Except.ok (),
          fun _ => Except.ok ("{}"), ("http://x")⟩ ("~bus") 3).resp =
      (readDmHistory
        ⟨Except.ok (), Except.ok (), Except.ok (),
          fun _ => Except.ok ("{}"), ("http://x")⟩ ("~bus") 3).resp :=
  (c8_session_guard
      ⟨Except.error ("down"), Except.ok (), Except.ok (),
        fun _ => Except.ok ("{}"), ("http://x")⟩ ("~bus") 3).2.2.1
    ("down") rfl rfl

/-! ## C1: digit expansion lemmas for the aura encoding -/

/-- The fuelled digit expansion evaluates back to its input. -/
theorem ofDigits_natDigitsAux (fuel : Nat) :
    ∀ n : Nat, n < fuel → Nat.ofDigits 10 (natDigitsAux fuel n) = n := by
  induction fuel with
  | zero => intro n hn; omega
  | succ f ih =>
    intro n hn
    rw [natDigitsAux]
    by_cases h : n < 10
    · rw [if_pos h]
      simp [Nat.ofDigits_cons, Nat.ofDigits_nil]
    · rw [if_neg h]
      rw [Nat.ofDigits_cons]
      have hdiv : n / 10 < n := Nat.div_lt_self (by omega) (by omega)
      rw [ih (n / 10) (by omega)]
      omega

/-- Every digit of the fuelled expansion is below 10. -/
theorem natDigitsAux_lt (fuel : Nat) : ∀ n d, d ∈ natDigitsAux fuel n → d < 10 := by
  induction fuel with
  | zero => intro n d hd; rw [natDigitsAux] at hd; cases hd
  | succ f ih =>
    intro n d hd
    rw [natDigitsAux] at hd
    by_cases h : n < 10
    · rw [if_pos h] at hd
      rcases List.mem_singleton.mp hd with rfl
      exact h
    · rw [if_neg h] at hd
      rcases List.mem_cons.mp hd with rfl | ht
      · omega
      · exact ih _ _ ht

/-- Digit lists below the base evaluate below the base power. -/
theorem ofDigits_lt_pow (L : List Nat) (h : ∀ x ∈ L, x < 10) :
    Nat.ofDigits 10 L < 10 ^ L.length := by
  induction L with
  | nil => simp [Nat.ofDigits_nil]
  | cons d t ih =>
    rw [Nat.ofDigits_cons, List.length_cons, pow_succ]
    have hd : d < 10 := h d (List.mem_cons_self _ _)
    have ht := ih (fun x hx => h x (List.mem_cons_of_mem _ hx))
    have h1 : 10 * (Nat.ofDigits 10 t + 1) ≤ 10 * 10 ^ t.length :=
      Nat.mul_le_mul_left 10 (by omega)
    omega

/-! ## Lexicographic order lemmas on character lists -/

/-- A lexicographic comparison is preserved under a common prefix. -/
theorem lex_append_left {r : Char → Char → Prop} (p : List Char) {s1 s2 : List Char}
    (h : List.Lex r s1 s2) : List.Lex r (p ++ s1) (p ++ s2) := by
  induction p with
  | nil => simpa using h
  | cons c cs ih => exact List.Lex.cons ih

/-- A lexicographic comparison of equal-length lists is preserved under
arbitrary continuations. -/
theorem lex_append_of_lex {r : Char → Char → Prop} :
    ∀ (t1 t2 s1 s2 : List Char), t1.length = t2.length →
      List.Lex r t1 t2 → List.Lex r (t1 ++ s1) (t2 ++ s2) := by
  intro t1
  induction t1 with
  | nil =>
    intro t2 s1 s2 hlen h
    cases h with
    | nil => simp at hlen
  | cons a t1' ih =>
    intro t2 s1 s2 hlen h
    cases h with
    | rel hr => exact List.Lex.rel hr
    | cons h' =>
      rename_i t2'
      exact List.Lex.cons (ih t2' s1 s2 (by simpa using hlen) h')

/-- A lexicographic comparison across equal-length prefixes splits into
a comparison of the prefixes or equality plus a comparison of the
suffixes. -/
theorem lex_append_split {r : Char → Char → Prop} :
    ∀ (t1 t2 s1 s2 : List Char), t1.length = t2.length →
      List.Lex r (t1 ++ s1) (t2 ++ s2) →
      List.Lex r t1 t2 ∨ (t1 = t2 ∧ List.Lex r s1 s2) := by
  intro t1
  induction t1 with
  | nil =>
    intro t2 s1 s2 hlen h
    have ht2 : t2 = [] := List.length_eq_zero.mp hlen.symm
    subst ht2
    exact Or.inr ⟨rfl, by simpa using h⟩
  | cons a t1' ih =>
    intro t2 s1 s2 hlen h
    cases t2 with
    | nil => simp at hlen
    | cons b t2' =>
      rw [List.cons_append, List.cons_append] at h
      cases h with
      | rel hr => exact Or.inl (List.Lex.rel hr)
      | cons h' =>
        rcases ih t2' s1 s2 (by simpa using hlen) h' with hl | ⟨heq, hs⟩
        · exact Or.inl (List.Lex.cons hl)
        · exact Or.inr ⟨by rw [heq], hs⟩

/-- Equal-length digit lists (most significant first) compare
lexicographically as their values. -/
theorem lex_of_val_lt :
    ∀ (d1 d2 : List Nat), d1.length = d2.length →
      (∀ x ∈ d1, x < 10) → (∀ x ∈ d2, x < 10) →
      Nat.ofDigits 10 d1.reverse < Nat.ofDigits 10 d2.reverse →
      List.Lex (fun x y => x < y) d1 d2 := by
  intro d1
  induction d1 with
  | nil =>
    intro d2 hlen h1 h2 hv
    have ht2 : d2 = [] := List.length_eq_zero.mp hlen.symm
    subst ht2
    simp [Nat.ofDigits_nil] at hv
  | cons a t1 ih =>
    intro d2 hlen h1 h2 hv
    cases d2 with
    | nil => simp at hlen
    | cons b t2 =>
      have hlt : t1.length = t2.length := by simpa using hlen
      rw [List.reverse_cons, List.reverse_cons, Nat.ofDigits_append,
        Nat.ofDigits_append] at hv
      have hsing : ∀ x : Nat, (Nat.ofDigits 10 [x] : ℕ) = x := by
        intro x
        simp [Nat.ofDigits_cons, Nat.ofDigits_nil]
      rw [hsing a, hsing b, List.length_reverse, List.length_reverse, hlt] at hv
      have hb1 : ∀ x ∈ t1, x < 10 := fun x hx => h1 x (List.mem_cons_of_mem _ hx)
      have hb2 : ∀ x ∈ t2, x < 10 := fun x hx => h2 x (List.mem_cons_of_mem _ hx)
      have hval1 : Nat.ofDigits 10 t1.reverse < 10 ^ t2.length := by
        have := ofDigits_lt_pow t1.reverse (fun x hx => hb1 x (List.mem_reverse.mp hx))
        rwa [List.length_reverse, hlt] at this
      have hval2 : Nat.ofDigits 10 t2.reverse < 10 ^ t2.length := by
        have := ofDigits_lt_pow t2.reverse (fun x hx => hb2 x (List.mem_reverse.mp hx))
        rwa [List.length_reverse] at this
      rcases lt_trichotomy a b with hab | hab | hab
      · exact List.Lex.rel hab
      · subst hab
        have hvt : Nat.ofDigits 10 t1.reverse < Nat.ofDigits 10 t2.reverse := by omega
        exact List.Lex.cons (ih t2 hlt hb1 hb2 hvt)
      · exfalso
        have hm : 10 ^ t2.length * (b + 1) ≤ 10 ^ t2.length * a :=
          Nat.mul_le_mul_left _ (by omega)
        rw [Nat.mul_succ] at hm
        omega

/-- Digit-to-character mapping preserves lexicographic comparisons of
digit lists bounded by the base. -/
theorem lex_map_digitChar {d1 d2 : List Nat} (h : List.Lex (fun x y => x < y) d1 d2) :
    (∀ x ∈ d1, x < 10) → (∀ x ∈ d2, x < 10) →
      List.Lex (fun x y => x < y) (d1.map udDigitChar) (d2.map udDigitChar) := by
  induction h with
  | nil =>
    intro h1 h2
    rw [List.map_nil, List.map_cons]
    exact List.Lex.nil
  | @cons a l1 l2 hlex ih =>
    intro h1 h2
    rw [List.map_cons, List.map_cons]
    exact List.Lex.cons (ih (fun x hx => h1 x (List.mem_cons_of_mem _ hx))
      (fun x hx => h2 x (List.mem_cons_of_mem _ hx)))
  | @rel a1 l1 a2 l2 hr =>
    intro h1 h2
    rw [List.map_cons, List.map_cons]
    have hdig : ∀ a < 10, ∀ b < 10, a < b → udDigitChar a < udDigitChar b := by decide
    exact List.Lex.rel
      (hdig a1 (h1 a1 (List.mem_cons_self _ _)) a2 (h2 a2 (List.mem_cons_self _ _)) hr)

/-- Dot grouping preserves lexicographic comparisons of equal-length
character lists. -/
theorem lex_groupUdAux :
    ∀ (fuel : Nat) (l1 l2 : List Char), l1.length ≤ fuel → l1.length = l2.length →
      List.Lex (fun x y => x < y) l1 l2 →
      List.Lex (fun x y => x < y) (groupUdAux fuel l1) (groupUdAux fuel l2) := by
  intro fuel
  induction fuel with
  | zero => intro l1 l2 _ _ h; simpa [groupUdAux] using h
  | succ f ih =>
    intro l1 l2 hf hlen h
    rw [groupUdAux, groupUdAux]
    by_cases h3 : l1.length ≤ 3
    · rw [if_pos h3, if_pos (show l2.length ≤ 3 by omega)]
      exact h
    · rw [if_neg h3, if_neg (show ¬ l2.length ≤ 3 by omega)]
      dsimp only
      have hk2 : (l2.length - 1) % 3 + 1 = (l1.length - 1) % 3 + 1 := by rw [hlen]
      rw [hk2]
      have hkpos : 1 ≤ (l1.length - 1) % 3 + 1 := by omega
      have htlen : (l1.take ((l1.length - 1) % 3 + 1)).length =
          (l2.take ((l1.length - 1) % 3 + 1)).length := by
        simp [List.length_take, hlen]
      have hsplit := lex_append_split (l1.take ((l1.length - 1) % 3 + 1))
        (l2.take ((l1.length - 1) % 3 + 1))
        (l1.drop ((l1.length - 1) % 3 + 1)) (l2.drop ((l1.length - 1) % 3 + 1))
        htlen
        (by rw [List.take_append_drop, List.take_append_drop]; exact h)
      rcases hsplit with hl | ⟨heq, hd⟩
      · exact lex_append_of_lex _ _ _ _ htlen hl
      · rw [heq]
        apply lex_append_left
        apply List.Lex.cons
        apply ih
        · rw [List.length_drop]
          omega
        · rw [List.length_drop, List.length_drop, hlen]
        · exact hd

/-- The aura time encoding is strictly monotone in the timestamp. -/
theorem unixToDa_strictMono {t1 t2 : Nat} (h : t1 < t2) : unixToDa t1 < unixToDa t2 := by
  unfold unixToDa DA_SECOND
  apply Nat.add_lt_add_left
  have h1 : t1 * 18446744073709551616 + 1000 ≤ t2 * 18446744073709551616 := by
    have h2 : (t1 + 1) * 18446744073709551616 ≤ t2 * 18446744073709551616 :=
      Nat.mul_le_mul_right _ (Nat.succ_le_of_lt h)
    rw [Nat.add_mul] at h2
    omega
  calc t1 * 18446744073709551616 / 1000
      < t1 * 18446744073709551616 / 1000 + 1 := Nat.lt_succ_self _
    _ = (t1 * 18446744073709551616 + 1000) / 1000 := by
        rw [Nat.add_div_right _ (by omega)]
    _ ≤ t2 * 18446744073709551616 / 1000 := Nat.div_le_div_right h1

/-- Dot grouping introduces no characters beyond its input and dots. -/
theorem mem_groupUdAux :
    ∀ (fuel : Nat) (l : List Char) (c : Char), c ∈ groupUdAux fuel l →
      c ∈ l ∨ c = '.' := by
  intro fuel
  induction fuel with
  | zero => intro l c hc; rw [groupUdAux] at hc; exact Or.inl hc
  | succ f ih =>
    intro l c hc
    rw [groupUdAux] at hc
    by_cases h3 : l.length ≤ 3
    · rw [if_pos h3] at hc
      exact Or.inl hc
    · rw [if_neg h3] at hc
      dsimp only at hc
      rcases List.mem_append.mp hc with hin | hin
      · exact Or.inl (List.take_subset _ _ hin)
      · rcases List.mem_cons.mp hin with rfl | htail
        · exact Or.inr rfl
        · rcases ih _ c htail with hdrop | hdot
          · exact Or.inl (List.drop_subset _ _ hdrop)
          · exact Or.inr hdot

/-- The formatted time encoding never contains a slash. -/
theorem slash_not_mem_formatUd (n : Nat) : '/' ∉ (formatUd n).data := by
  intro hmem
  have h := mem_groupUdAux (decimalChars n).length (decimalChars n) '/' hmem
  rcases h with hin | hdot
  · rcases List.mem_map.mp hin with ⟨d, hd, he⟩
    have hd10 : d < 10 := natDigitsAux_lt _ _ _ (List.mem_reverse.mp hd)
    have hne : ∀ d < 10, udDigitChar d ≠ '/' := by decide
    exact hne d hd10 he
  · exact absurd hdot (by decide)

/-- Splitting at the last slash: if the suffixes are slash-free, equal
concatenations have equal prefixes. -/
theorem append_slash_inj :
    ∀ (x1 x2 s1 s2 : List Char), '/' ∉ s1 → '/' ∉ s2 →
      x1 ++ '/' :: s1 = x2 ++ '/' :: s2 → x1 = x2 := by
  intro x1
  induction x1 with
  | nil =>
    intro x2 s1 s2 h1 h2 he
    cases x2 with
    | nil => rfl
    | cons c x2' =>
      rw [List.nil_append, List.cons_append] at he
      injection he with hc hrest
      exfalso
      apply h1
      rw [hrest]
      exact List.mem_append.mpr (Or.inr (List.mem_cons_self _ _))
  | cons c x1' ih =>
    intro x2 s1 s2 h1 h2 he
    cases x2 with
    | nil =>
      rw [List.nil_append, List.cons_append] at he
      injection he with hc hrest
      exfalso
      apply h2
      rw [← hrest]
      exact List.mem_append.mpr (Or.inr (List.mem_cons_self _ _))
    | cons c2 x2' =>
      rw [List.cons_append, List.cons_append] at he
      injection he with hc hrest
      rw [hc, ih x2' s1 s2 h1 h2 hrest]

/-! ## C1: identifier ordering (corrected) -/

set_option maxRecDepth 16000 in
/-- C1 counterexample: lexicographic ordering of composed identifiers
does not follow the timestamps at a decimal digit-length boundary of the
encoding: with `t1 = 4e22 < t2 = 5e22` milliseconds the identifier of
the later message sorts strictly before the identifier of the earlier
one. -/
theorem c1_id_ordering_counterexample :
    4 * 10 ^ 22 < 5 * 10 ^ 22 ∧
    mkDmId ("~zod") (5 * 10 ^ 22) < mkDmId ("~zod") (4 * 10 ^ 22) := by
  constructor
  · norm_num
  · refine String.lt_iff_toList_lt.mpr ?_
    show (mkDmId ("~zod") (5 * 10 ^ 22)).data < (mkDmId ("~zod") (4 * 10 ^ 22)).data
    decide

/-- C1 (amended): for one author and timestamps `t1 < t2` whose
encodings have equally many decimal digits (which holds for all
realistic epoch-millisecond clocks; the digit count first changes about
1.4 billion years after 1970), the composed identifiers sort in
timestamp order lexicographically, and the underlying numeric encodings
sort in timestamp order; identifiers of two distinct authors are never
equal, for any timestamps. -/
theorem c1_id_ordering (a : String) (t1 t2 : Nat) (h : t1 < t2)
    (hlen : (decimalChars (unixToDa t1)).length = (decimalChars (unixToDa t2)).length) :
    mkDmId a t1 < mkDmId a t2 ∧ unixToDa t1 < unixToDa t2 ∧
    (∀ (a1 a2 : String) (u1 u2 : Nat), a1 ≠ a2 → mkDmId a1 u1 ≠ mkDmId a2 u2) := by
  refine ⟨?_, unixToDa_strictMono h, ?_⟩
  · refine String.lt_iff_toList_lt.mpr ?_
    show List.Lex (fun x y => x < y) ((mkDmId a t1).toList) ((mkDmId a t2).toList)
    have hd : ∀ u : Nat, (mkDmId a u).toList =
        (a.data ++ ['/']) ++ groupUd (decimalChars (unixToDa u)) := by
      intro u
      show (mkDmId a u).data = _
      simp only [mkDmId, String.data_append]
      rfl
    rw [hd t1, hd t2]
    apply lex_append_left
    unfold groupUd
    rw [← hlen]
    apply lex_groupUdAux _ _ _ (le_refl _) hlen
    unfold decimalChars
    apply lex_map_digitChar
    · apply lex_of_val_lt
      · have h2 := hlen
        unfold decimalChars at h2
        simpa using h2
      · intro x hx
        exact natDigitsAux_lt _ _ _ (List.mem_reverse.mp hx)
      · intro x hx
        exact natDigitsAux_lt _ _ _ (List.mem_reverse.mp hx)
      · rw [List.reverse_reverse, List.reverse_reverse]
        unfold natDigitsRev
        rw [ofDigits_natDigitsAux _ _ (Nat.lt_succ_self _),
          ofDigits_natDigitsAux _ _ (Nat.lt_succ_self _)]
        exact unixToDa_strictMono h
    · intro x hx
      exact natDigitsAux_lt _ _ _ (List.mem_reverse.mp hx)
    · intro x hx
      exact natDigitsAux_lt _ _ _ (List.mem_reverse.mp hx)
  · intro a1 a2 u1 u2 hne he
    apply hne
    have hdata := congrArg String.data he
    simp only [mkDmId, String.data_append] at hdata
    rw [List.append_assoc, List.append_assoc,
      List.singleton_append, List.singleton_append] at hdata
    exact String.ext (append_slash_inj _ _ _ _
      (slash_not_mem_formatUd _) (slash_not_mem_formatUd _) hdata)

set_option maxRecDepth 16000 in
/-- Witness for C1 at the concrete author `~zod` and timestamps 100 and
200 (whose encodings have equal digit counts). -/
theorem c1_id_ordering_witness :
    mkDmId ("~zod") 100 < mkDmId ("~zod") 200 ∧ unixToDa 100 < unixToDa 200 ∧
    (∀ (a1 a2 : String) (u1 u2 : Nat), a1 ≠ a2 → mkDmId a1 u1 ≠ mkDmId a2 u2) :=
  c1_id_ordering ("~zod") 100 200 (by decide) (by decide)
